import Mathlib

/-!
Verification of the NOFX trading-bot core: trade reconstruction and
performance analytics (src/api/server.go, analyzePerformanceFromBinance)
and the combined-streams market-data client (src/market/combined_streams.go).

Modelling conventions:
* Go float64 values are modelled as rationals (ℚ); Go division is total on
  floats, and the embedding uses the total division of ℚ, whose value at a
  zero denominator is 0 (standing in for the degenerate Go result).
* Go int64 millisecond timestamps are modelled as ℤ, Go int counters as ℕ.
* The TradeOutcome Duration string field is modelled by the underlying
  millisecond difference durationMs.
-/

namespace Nofx

/-- Fill record, as consumed from GetAllTradeHistory in server.go:
symbol, side (BUY or SELL), position side (LONG or SHORT), quantity,
price, commission, realized PnL and the exchange timestamp in ms. -/
structure Fill where
  symbol : String
  side : String
  positionSide : String
  qty : ℚ
  price : ℚ
  commission : ℚ
  realizedPnl : ℚ
  time : ℤ
deriving DecidableEq, Repr

/-- TradeOutcome, mirroring logger.TradeOutcome as populated at
src/api/server.go lines 1845-1859. -/
structure TradeOutcome where
  symbol : String
  side : String
  quantity : ℚ
  leverage : ℤ
  openPrice : ℚ
  closePrice : ℚ
  positionValue : ℚ
  marginUsed : ℚ
  pnl : ℚ
  pnlPct : ℚ
  durationMs : ℤ
  openTimeMs : ℤ
  closeTimeMs : ℤ
deriving DecidableEq, Repr

/-- The per-symbol, per-position-side accumulator (the local Position
struct at src/api/server.go lines 1794-1802).  The openPrice field is
declared in the source but never written; it is kept for faithfulness. -/
structure Position where
  openPrice : ℚ
  openTime : ℤ
  totalQty : ℚ
  totalCost : ℚ
  realizedPnl : ℚ
  commission : ℚ
  tradeCount : ℕ
deriving DecidableEq, Repr

/-- The zero accumulator state: Position{} in Go. -/
def Position.init : Position :=
  { openPrice := 0, openTime := 0, totalQty := 0, totalCost := 0
    realizedPnl := 0, commission := 0, tradeCount := 0 }

/-- The epsilon threshold 0.0001 used at line 1835 to decide that a
position has fully closed. -/
def epsilonQty : ℚ := 1 / 10000

/-- The hardcoded default leverage (line 1842: leverage := 5). -/
def defaultLeverage : ℤ := 5

/-- Model of the Go strings.ToLower library call: lowercase every
character. -/
def lowerString (s : String) : String := ⟨s.data.map Char.toLower⟩

/-- Classification of a fill as opening (line 1818-1819): side BUY with
position side LONG, or side SELL with position side SHORT. -/
def isOpeningFill (f : Fill) : Bool :=
  (f.side == "BUY" && f.positionSide == "LONG") ||
    (f.side == "SELL" && f.positionSide == "SHORT")

/-- One step of the reconstruction loop body (lines 1817-1889) applied to
the accumulator selected for the fill.  Returns the updated accumulator
and the TradeOutcome emitted when the cycle closes, if any. -/
def processFill (symbol : String) (pos : Position) (f : Fill) :
    Position × Option TradeOutcome :=
  if isOpeningFill f then
    ({ pos with
        openTime := if pos.totalQty = 0 then f.time else pos.openTime
        totalCost := pos.totalCost + f.price * f.qty
        totalQty := pos.totalQty + f.qty
        tradeCount := pos.tradeCount + 1 }, none)
  else
    let pos1 : Position :=
      { pos with
          realizedPnl := pos.realizedPnl + f.realizedPnl
          commission := pos.commission + f.commission
          totalQty := pos.totalQty - f.qty
          tradeCount := pos.tradeCount + 1 }
    if pos1.totalQty ≤ epsilonQty ∧ 0 < pos1.tradeCount then
      let avgOpenPrice := pos1.totalCost / (pos1.totalQty + f.qty)
      let quantity := pos1.totalQty + f.qty
      let positionValue := avgOpenPrice * quantity
      let marginUsed := positionValue / (defaultLeverage : ℚ)
      let outcome : TradeOutcome :=
        { symbol := symbol
          side := lowerString f.positionSide
          quantity := quantity
          leverage := defaultLeverage
          openPrice := avgOpenPrice
          closePrice := f.price
          positionValue := positionValue
          marginUsed := marginUsed
          pnl := pos1.realizedPnl - pos1.commission
          pnlPct := (pos1.realizedPnl - pos1.commission) / marginUsed * 100
          durationMs := f.time - pos1.openTime
          openTimeMs := pos1.openTime
          closeTimeMs := f.time }
      (Position.init, some outcome)
    else
      (pos1, none)

/-- The per-symbol reconstruction loop (lines 1807-1891): fills are routed
to the LONG or SHORT accumulator by position side; any other position
side is skipped (the continue at line 1814).  Emitted outcomes are
collected in fill order. -/
def processFills (symbol : String) :
    List Fill → Position → Position → List TradeOutcome
  | [], _, _ => []
  | f :: rest, longPos, shortPos =>
    if f.positionSide == "LONG" then
      let r := processFill symbol longPos f
      r.2.toList ++ processFills symbol rest r.1 shortPos
    else if f.positionSide == "SHORT" then
      let r := processFill symbol shortPos f
      r.2.toList ++ processFills symbol rest longPos r.1
    else
      processFills symbol rest longPos shortPos

/-- Reconstruction of all round-trip trades of one symbol, starting from
two empty accumulators (longPos, shortPos at lines 1804-1805). -/
def analyzeSymbolTrades (symbol : String) (fills : List Fill) :
    List TradeOutcome :=
  processFills symbol fills Position.init Position.init

/-- Predicate for the cycle-closing step: the fill is a closing fill and
the running quantity after subtracting its quantity falls to at most
epsilon (the condition at line 1835; the tradeCount clause there is
always true since the counter was just incremented). -/
def closesCycle (pos : Position) (f : Fill) : Bool :=
  !(isOpeningFill f) && decide (pos.totalQty - f.qty ≤ epsilonQty)

/-- Number of closing cycles along the reconstruction trace: one for each
step at which the routed accumulator crosses the epsilon threshold on a
closing fill. -/
def countClosures (symbol : String) :
    List Fill → Position → Position → ℕ
  | [], _, _ => 0
  | f :: rest, longPos, shortPos =>
    if f.positionSide == "LONG" then
      (if closesCycle longPos f then 1 else 0) +
        countClosures symbol rest (processFill symbol longPos f).1 shortPos
    else if f.positionSide == "SHORT" then
      (if closesCycle shortPos f then 1 else 0) +
        countClosures symbol rest longPos (processFill symbol shortPos f).1
    else
      countClosures symbol rest longPos shortPos

/-! Performance analyzer (src/api/server.go lines 1861-1917, 1919-2012).
In the source the totals are accumulated while outcomes are emitted and
the ratios are derived afterwards; the accumulation is equivalent to
folding over the final outcome list, which is how it is embedded here. -/

/-- Number of trades with positive PnL (analysis.WinningTrades). -/
def winningCount (ts : List TradeOutcome) : ℕ :=
  (ts.filter fun t => decide (0 < t.pnl)).length

/-- Number of trades with negative PnL (analysis.LosingTrades). -/
def losingCount (ts : List TradeOutcome) : ℕ :=
  (ts.filter fun t => decide (t.pnl < 0)).length

/-- Sum of the positive PnLs (the pre-division analysis.AvgWin). -/
def sumWins (ts : List TradeOutcome) : ℚ :=
  ((ts.filter fun t => decide (0 < t.pnl)).map TradeOutcome.pnl).sum

/-- Sum of the negative PnLs (the pre-division analysis.AvgLoss). -/
def sumLosses (ts : List TradeOutcome) : ℚ :=
  ((ts.filter fun t => decide (t.pnl < 0)).map TradeOutcome.pnl).sum

/-- analysis.AvgWin after the division at lines 1895-1897: divided by the
winning count when positive, otherwise left at the accumulated sum
(which is then 0). -/
def avgWin (ts : List TradeOutcome) : ℚ :=
  if 0 < winningCount ts then sumWins ts / (winningCount ts : ℚ) else sumWins ts

/-- analysis.AvgLoss after the division at lines 1898-1900. -/
def avgLoss (ts : List TradeOutcome) : ℚ :=
  if 0 < losingCount ts then sumLosses ts / (losingCount ts : ℚ) else sumLosses ts

/-- analysis.WinRate (lines 1901-1903): winning count over total count
times 100 when any trades exist, otherwise the zero initial value. -/
def winRate (ts : List TradeOutcome) : ℚ :=
  if 0 < ts.length then (winningCount ts : ℚ) / (ts.length : ℚ) * 100 else 0

/-- analysis.ProfitFactor (lines 1906-1917): avgWin over the magnitude of
avgLoss capped at 100 when losing trades exist, 100 when only winning
trades exist, 0 otherwise. -/
def profitFactor (ts : List TradeOutcome) : ℚ :=
  if avgLoss ts ≠ 0 ∧ 0 < losingCount ts then
    let pf := avgWin ts / -avgLoss ts
    if 100 < pf then 100 else pf
  else if 0 < winningCount ts ∧ losingCount ts = 0 then 100
  else 0

/-- The base value chosen for a per-trade return (lines 1932-1951):
margin used when positive, else position value when positive, else the
estimate open price times quantity divided by the leverage when that is
positive; 0 when no branch applies. -/
def tradeReturnBase (t : TradeOutcome) : ℚ :=
  if 0 < t.marginUsed then t.marginUsed
  else if 0 < t.positionValue then t.positionValue
  else if 0 < t.openPrice ∧ 0 < t.quantity then
    if 0 < t.leverage then t.openPrice * t.quantity / (t.leverage : ℚ)
    else t.openPrice * t.quantity
  else 0

/-- The sample of valid per-trade returns (lines 1953-1957): a trade
contributes PnL divided by its base exactly when the base is positive. -/
def validReturns (ts : List TradeOutcome) : List ℚ :=
  ts.filterMap fun t =>
    if 0 < tradeReturnBase t then some (t.pnl / tradeReturnBase t) else none

/-- Mean of a list of returns (lines 1964-1968). -/
def meanReturn (rs : List ℚ) : ℚ := rs.sum / (rs.length : ℚ)

/-- Population variance of a list of returns (lines 1971-1976, before the
square root). -/
def popVariance (rs : List ℚ) : ℚ :=
  ((rs.map fun r => (r - meanReturn rs) * (r - meanReturn rs)).sum) / (rs.length : ℚ)

/-- Population standard deviation (math.Sqrt at line 1976), over ℝ. -/
noncomputable def stdDev (rs : List ℚ) : ℝ :=
  Real.sqrt ((popVariance rs : ℚ) : ℝ)

/-- Clipping of the Sharpe ratio to the range from -3 to 3
(lines 1984-1988). -/
noncomputable def clipSharpe (s : ℝ) : ℝ :=
  if 3 < s then 3 else if s < -3 then -3 else s

/-- analysis.SharpeRatio (lines 1921-2000): zero unless at least two
trades yield at least two valid returns with positive standard
deviation, in which case it is the clipped mean over standard
deviation. -/
noncomputable def sharpeRatio (ts : List TradeOutcome) : ℝ :=
  if 2 ≤ ts.length then
    let rs := validReturns ts
    if 2 ≤ rs.length then
      if 0 < stdDev rs then clipSharpe (((meanReturn rs : ℚ) : ℝ) / stdDev rs)
      else 0
    else 0
  else 0

/-! Per-symbol statistics (lines 1872-1885 accumulate them per emitted
outcome; lines 2006-2012 derive win rate and average PnL).  The
accumulation keyed by symbol is equivalent to filtering the outcome list
by symbol. -/

/-- The outcomes of one symbol (the per-symbol accumulation scope). -/
def symbolTrades (ts : List TradeOutcome) (sym : String) : List TradeOutcome :=
  ts.filter fun t => t.symbol == sym

/-- stats.TotalTrades for one symbol. -/
def symbolTotalTrades (ts : List TradeOutcome) (sym : String) : ℕ :=
  (symbolTrades ts sym).length

/-- stats.WinningTrades for one symbol. -/
def symbolWinningCount (ts : List TradeOutcome) (sym : String) : ℕ :=
  winningCount (symbolTrades ts sym)

/-- stats.TotalPnL for one symbol. -/
def symbolTotalPnL (ts : List TradeOutcome) (sym : String) : ℚ :=
  ((symbolTrades ts sym).map TradeOutcome.pnl).sum

/-- stats.WinRate (lines 2008-2009); 0 when the symbol has no trades
(then no map entry exists in the source). -/
def symbolWinRate (ts : List TradeOutcome) (sym : String) : ℚ :=
  if 0 < symbolTotalTrades ts sym then
    (symbolWinningCount ts sym : ℚ) / (symbolTotalTrades ts sym : ℚ) * 100
  else 0

/-- stats.AvgPnL (line 2010); 0 when the symbol has no trades. -/
def symbolAvgPnL (ts : List TradeOutcome) (sym : String) : ℚ :=
  if 0 < symbolTotalTrades ts sym then
    symbolTotalPnL ts sym / (symbolTotalTrades ts sym : ℚ)
  else 0

/-! Combined-streams client (src/market/combined_streams.go). -/

/-- The batching loop of splitIntoBatches (lines 86-92) and of the
resubscription in handleReconnect (lines 217-245): a for loop advancing
an index i by batchSize and slicing symbols from i to
min (i + batchSize) (length symbols).  The loop is modelled with
explicit fuel; none means the fuel ran out, which for a positive batch
size never happens with fuel above the list length, and which for batch
size 0 on a non-empty list happens for every fuel (the Go loop never
terminates there). -/
def splitLoop (symbols : List String) (batchSize : ℕ) :
    ℕ → ℕ → Option (List (List String))
  | 0, _ => none
  | fuel + 1, i =>
    if i < symbols.length then
      match splitLoop symbols batchSize fuel (i + batchSize) with
      | none => none
      | some rest =>
        some (((symbols.drop i).take (min (i + batchSize) symbols.length - i)) :: rest)
    else
      some []

/-- splitIntoBatches (lines 83-95), with fuel one above the list length,
which suffices for every positive batch size. -/
def splitIntoBatches (symbols : List String) (batchSize : ℕ) :
    Option (List (List String)) :=
  splitLoop symbols batchSize (symbols.length + 1) 0

/-- The stream key built at line 66: lowercased symbol, the literal
at-kline separator, and the interval. -/
def klineStreamName (symbol interval : String) : String :=
  lowerString symbol ++ "@kline_" ++ interval

/-- The batches of stream keys sent by BatchSubscribeKlines
(lines 57-80): the symbol batches from splitIntoBatches, each mapped to
kline stream names.  Inherits the splitIntoBatches fuel behaviour. -/
def batchSubscribeKlinesBatches (symbols : List String) (interval : String)
    (batchSize : ℕ) : Option (List (List String)) :=
  (splitIntoBatches symbols batchSize).map
    (fun batches => batches.map (fun b => b.map (fun s => klineStreamName s interval)))

/-- subscribeStreams (line 112) appends the requested streams to the
subscribedStreams record. -/
def recordSubscribed (subscribed streams : List String) : List String :=
  subscribed ++ streams

/-- The subscribedStreams record after a sequence of subscription
requests, starting from the empty record of the constructor. -/
def accumulatedStreams (requests : List (List String)) : List String :=
  requests.foldl recordSubscribed []

/-- The deduplicated resubscription list built in handleReconnect
(lines 203-211) from a set of the recorded streams.  Go map iteration
order is unspecified; the embedding picks the order of List.dedup, and
every property proved about it is order-insensitive (membership and the
absence of duplicates). -/
def resubscribeList (subscribed : List String) : List String :=
  subscribed.dedup

/-- The resubscription batches sent in handleReconnect (lines 214-247):
the deduplicated stream list re-batched by the same index loop at the
configured batch size. -/
def handleReconnectBatches (subscribed : List String) (batchSize : ℕ) :
    Option (List (List String)) :=
  splitLoop (resubscribeList subscribed) batchSize
    ((resubscribeList subscribed).length + 1) 0

/-- The client state observable by Close (lines 253-269): the reconnect
flag, whether the done channel has been closed, whether the socket is
open, how many times the socket was closed, the registered subscriber
channels, and the log of channel-close events. -/
structure ClientState where
  reconnect : Bool
  doneClosed : Bool
  connOpen : Bool
  sockCloseCount : ℕ
  subscribers : List String
  closedChans : List String
deriving DecidableEq, Repr

/-- Close (lines 253-269).  It clears the reconnect flag, then closes the
done channel: in Go, closing an already-closed channel panics, modelled
as Except.error.  Otherwise it closes the socket when open (setting it
to nil, hence at most one socket close), then closes and removes every
subscriber channel. -/
def closeClient (c : ClientState) : Except String ClientState :=
  let c1 := { c with reconnect := false }
  if c1.doneClosed then
    Except.error "close of closed channel"
  else
    let c2 := { c1 with doneClosed := true }
    let c3 :=
      if c2.connOpen then
        { c2 with connOpen := false, sockCloseCount := c2.sockCloseCount + 1 }
      else c2
    Except.ok { c3 with
      closedChans := c3.closedChans ++ c3.subscribers
      subscribers := [] }

/-- A bounded subscriber channel: its capacity and current buffer. -/
structure SubChan where
  capacity : ℕ
  buffer : List String
deriving DecidableEq, Repr

/-- Lookup in the subscriber registry, modelled as an association list
with the first matching key (Go map keys are unique). -/
def lookupChan (subs : List (String × SubChan)) (key : String) : Option SubChan :=
  match subs with
  | [] => none
  | (k, ch) :: rest => if k == key then some ch else lookupChan rest key

/-- Replacement of the channel registered under a key, leaving every
other entry untouched. -/
def setChan (subs : List (String × SubChan)) (key : String) (ch : SubChan) :
    List (String × SubChan) :=
  match subs with
  | [] => []
  | (k, c) :: rest =>
    if k == key then (k, ch) :: rest else (k, c) :: setChan rest key ch

/-- handleCombinedMessage (lines 155-177) after JSON decoding of the
frame into its stream key and data payload: deliver the payload to the
subscriber channel of the stream key when one exists and its buffer has
free capacity; when the buffer is full, drop the payload and log a
warning (the returned Bool); when no subscriber exists, discard the
frame. -/
def handleCombinedMessage (subs : List (String × SubChan))
    (stream payload : String) : List (String × SubChan) × Bool :=
  match lookupChan subs stream with
  | none => (subs, false)
  | some ch =>
    if ch.buffer.length < ch.capacity then
      (setChan subs stream { ch with buffer := ch.buffer ++ [payload] }, false)
    else
      (subs, true)

/-! Theorems. -/

/-- One reconstruction step emits an outcome exactly when the routed fill
closes the cycle. -/
lemma processFill_emission_length (s : String) (pos : Position) (f : Fill) :
    ((processFill s pos f).2.toList).length =
      if closesCycle pos f then 1 else 0 := by
  unfold processFill closesCycle
  by_cases h : isOpeningFill f
  · simp [h]
  · simp only [h, Bool.false_eq_true, if_false, Bool.not_false, Bool.true_and]
    by_cases hq : pos.totalQty - f.qty ≤ epsilonQty
    · simp [hq]
    · simp [hq]

/-- Along any fill list, the reconstruction emits exactly as many
outcomes as there are closing cycles. -/
lemma processFills_length_eq_countClosures (s : String) :
    ∀ (fills : List Fill) (longPos shortPos : Position),
      (processFills s fills longPos shortPos).length =
        countClosures s fills longPos shortPos := by
  intro fills
  induction fills with
  | nil => intro longPos shortPos; rfl
  | cons f rest ih =>
    intro longPos shortPos
    by_cases hl : f.positionSide == "LONG"
    · simp only [processFills, countClosures, hl, if_true, List.length_append,
        processFill_emission_length, ih]
    · by_cases hs : f.positionSide == "SHORT"
      · simp only [processFills, countClosures, hl, hs, Bool.false_eq_true,
          if_false, if_true, List.length_append, processFill_emission_length, ih]
      · simp only [processFills, countClosures, hl, hs, Bool.false_eq_true,
          if_false, ih]

/-- The exact value of a cycle-closing reconstruction step. -/
lemma processFill_closing_eq (s : String) (pos : Position) (f : Fill)
    (hclose : isOpeningFill f = false)
    (hcross : pos.totalQty - f.qty ≤ epsilonQty) :
    processFill s pos f = (Position.init, some
      { symbol := s
        side := lowerString f.positionSide
        quantity := pos.totalQty - f.qty + f.qty
        leverage := defaultLeverage
        openPrice := pos.totalCost / (pos.totalQty - f.qty + f.qty)
        closePrice := f.price
        positionValue := pos.totalCost / (pos.totalQty - f.qty + f.qty) *
          (pos.totalQty - f.qty + f.qty)
        marginUsed := pos.totalCost / (pos.totalQty - f.qty + f.qty) *
          (pos.totalQty - f.qty + f.qty) / (defaultLeverage : ℚ)
        pnl := pos.realizedPnl + f.realizedPnl - (pos.commission + f.commission)
        pnlPct := (pos.realizedPnl + f.realizedPnl - (pos.commission + f.commission)) /
          (pos.totalCost / (pos.totalQty - f.qty + f.qty) *
            (pos.totalQty - f.qty + f.qty) / (defaultLeverage : ℚ)) * 100
        durationMs := f.time - pos.openTime
        openTimeMs := pos.openTime
        closeTimeMs := f.time }) := by
  unfold processFill
  simp only [hclose, Bool.false_eq_true, if_false]
  rw [if_pos ⟨hcross, Nat.succ_pos pos.tradeCount⟩]

/-- C1: a closing fill that brings the running quantity to at most
epsilon finalizes exactly one TradeOutcome whose PnL is the accumulated
realized PnL minus the accumulated commission, whose quantity is the
quantity open before this fill, whose margin is quantity times average
open price divided by the default leverage, and whose duration is the
closing fill timestamp minus the open timestamp of the cycle; the
accumulator is reset to its zero state, and over any fill list the
number of emitted outcomes equals the number of closing cycles. -/
theorem trade_cycle_finalization (s : String) (pos : Position) (f : Fill)
    (hclose : isOpeningFill f = false)
    (hcross : pos.totalQty - f.qty ≤ epsilonQty) :
    (processFill s pos f).1 = Position.init ∧
    (∃ o : TradeOutcome, (processFill s pos f).2 = some o ∧
      o.pnl = pos.realizedPnl + f.realizedPnl - (pos.commission + f.commission) ∧
      o.quantity = pos.totalQty ∧
      o.openPrice = pos.totalCost / pos.totalQty ∧
      o.marginUsed = o.quantity * o.openPrice / (defaultLeverage : ℚ) ∧
      o.durationMs = f.time - pos.openTime ∧
      o.closeTimeMs = f.time) ∧
    (∀ (fills : List Fill) (longPos shortPos : Position),
      (processFills s fills longPos shortPos).length =
        countClosures s fills longPos shortPos) := by
  have hq : pos.totalQty - f.qty + f.qty = pos.totalQty := by ring
  have heq := processFill_closing_eq s pos f hclose hcross
  refine ⟨by rw [heq], ?_, processFills_length_eq_countClosures s⟩
  rw [heq]
  exact ⟨_, rfl, rfl, hq, by rw [hq], by rw [hq]; ring, rfl, rfl⟩

/-- Witness accumulator state: one opening LONG fill of quantity 1 at
price 100 already absorbed. -/
def c1Pos : Position :=
  { openPrice := 0, openTime := 1000, totalQty := 1, totalCost := 100
    realizedPnl := 0, commission := 0, tradeCount := 1 }

/-- Witness closing fill: SELL 1.0 at 110 on the LONG side with realized
PnL 10 and commission 0.2. -/
def c1CloseFill : Fill :=
  { symbol := "BTCUSDT", side := "SELL", positionSide := "LONG"
    qty := 1, price := 110, commission := 1/5, realizedPnl := 10, time := 5000 }

/-- Witness for C1 at a concrete closing fill. -/
theorem trade_cycle_finalization_witness :
    isOpeningFill c1CloseFill = false ∧
    c1Pos.totalQty - c1CloseFill.qty ≤ epsilonQty ∧
    ((processFill "BTCUSDT" c1Pos c1CloseFill).1 = Position.init ∧
    (∃ o : TradeOutcome, (processFill "BTCUSDT" c1Pos c1CloseFill).2 = some o ∧
      o.pnl = c1Pos.realizedPnl + c1CloseFill.realizedPnl -
        (c1Pos.commission + c1CloseFill.commission) ∧
      o.quantity = c1Pos.totalQty ∧
      o.openPrice = c1Pos.totalCost / c1Pos.totalQty ∧
      o.marginUsed = o.quantity * o.openPrice / (defaultLeverage : ℚ) ∧
      o.durationMs = c1CloseFill.time - c1Pos.openTime ∧
      o.closeTimeMs = c1CloseFill.time) ∧
    (∀ (fills : List Fill) (longPos shortPos : Position),
      (processFills "BTCUSDT" fills longPos shortPos).length =
        countClosures "BTCUSDT" fills longPos shortPos)) :=
  ⟨by decide, by norm_num [c1Pos, c1CloseFill, epsilonQty],
    trade_cycle_finalization "BTCUSDT" c1Pos c1CloseFill (by decide)
      (by norm_num [c1Pos, c1CloseFill, epsilonQty])⟩

/-- The opening fill of the concrete scenario of C3. -/
def c3OpenFill : Fill :=
  { symbol := "BTCUSDT", side := "BUY", positionSide := "LONG"
    qty := 1, price := 100, commission := 0, realizedPnl := 0, time := 1000 }

/-- C3: the fill sequence open LONG 1.0 at 100 then close LONG 1.0 at 110
with realized PnL 10 and commission 0.2 reconstructs, at the default
leverage 5, exactly one TradeOutcome with openPrice 100, closePrice 110,
positionValue 100, marginUsed 20, PnL 9.8 and PnLPct 49. -/
theorem concrete_long_round_trip :
    analyzeSymbolTrades "BTCUSDT" [c3OpenFill, c1CloseFill] =
      [{ symbol := "BTCUSDT", side := "long", quantity := 1, leverage := 5
         openPrice := 100, closePrice := 110, positionValue := 100
         marginUsed := 20, pnl := 49/5, pnlPct := 49
         durationMs := 4000, openTimeMs := 1000, closeTimeMs := 5000 }] := by
  norm_num [analyzeSymbolTrades, processFills, processFill, isOpeningFill,
    Position.init, epsilonQty, defaultLeverage, c3OpenFill, c1CloseFill]
  rw [if_neg (by decide)]
  rfl

/-- C9: when the first fill routed to an accumulator is already a closing
fill, the running quantity immediately drops to at most epsilon and a
TradeOutcome is emitted whose quantity, openPrice, positionValue and
marginUsed are all 0 (the zero standing for the unguarded 0/0 of the
source), and whose PnLPct is the unguarded division of the PnL by the
zero marginUsed times 100. -/
theorem closing_first_fill_zero_margin (s : String) (f : Fill)
    (hclose : isOpeningFill f = false) (hqty : 0 < f.qty) :
    Position.init.totalQty - f.qty ≤ epsilonQty ∧
    ∃ o : TradeOutcome, (processFill s Position.init f).2 = some o ∧
      o.quantity = 0 ∧ o.openPrice = 0 ∧ o.positionValue = 0 ∧
      o.marginUsed = 0 ∧ o.pnlPct = o.pnl / 0 * 100 := by
  have hcross : Position.init.totalQty - f.qty ≤ epsilonQty := by
    show (0 : ℚ) - f.qty ≤ 1 / 10000
    nlinarith
  have heq := processFill_closing_eq s Position.init f hclose hcross
  have hq0 : Position.init.totalQty - f.qty + f.qty = 0 := by
    show (0 : ℚ) - f.qty + f.qty = 0
    ring
  refine ⟨hcross, ?_⟩
  rw [heq]
  refine ⟨_, rfl, hq0, ?_, ?_, ?_, ?_⟩
  · rw [hq0]
    exact div_zero _
  · rw [hq0, mul_zero]
  · rw [hq0, mul_zero, zero_div]
  · rw [hq0, mul_zero, zero_div]

/-- Witness for C9: a lone SELL LONG fill of quantity 1. -/
theorem closing_first_fill_zero_margin_witness :
    isOpeningFill c1CloseFill = false ∧ (0 : ℚ) < c1CloseFill.qty ∧
    (Position.init.totalQty - c1CloseFill.qty ≤ epsilonQty ∧
    ∃ o : TradeOutcome,
      (processFill "BTCUSDT" Position.init c1CloseFill).2 = some o ∧
      o.quantity = 0 ∧ o.openPrice = 0 ∧ o.positionValue = 0 ∧
      o.marginUsed = 0 ∧ o.pnlPct = o.pnl / 0 * 100) :=
  ⟨by decide, by norm_num [c1CloseFill],
    closing_first_fill_zero_margin "BTCUSDT" c1CloseFill (by decide)
      (by norm_num [c1CloseFill])⟩

/-- A sum of negative rationals over a non-empty list is negative. -/
lemma sum_neg_of_forall_neg :
    ∀ (l : List ℚ), l ≠ [] → (∀ x ∈ l, x < 0) → l.sum < 0 := by
  intro l
  induction l with
  | nil => intro h; exact absurd rfl h
  | cons x xs ih =>
    intro _ hneg
    have hx : x < 0 := hneg x (List.mem_cons_self x xs)
    have hxs : xs.sum ≤ 0 := by
      rcases eq_or_ne xs [] with h | h
      · simp [h]
      · exact le_of_lt (ih h fun y hy => hneg y (List.mem_cons_of_mem x hy))
    simpa using add_neg_of_neg_of_nonpos hx hxs

/-- The accumulated winning PnL is nonnegative. -/
lemma sumWins_nonneg (ts : List TradeOutcome) : 0 ≤ sumWins ts := by
  apply List.sum_nonneg
  intro x hx
  simp only [sumWins, List.mem_map, List.mem_filter, decide_eq_true_eq] at hx
  obtain ⟨t, ⟨_, hp⟩, rfl⟩ := hx
  exact le_of_lt hp

/-- With at least one losing trade the accumulated losing PnL is
negative. -/
lemma sumLosses_neg (ts : List TradeOutcome) (h : 0 < losingCount ts) :
    sumLosses ts < 0 := by
  apply sum_neg_of_forall_neg
  · intro habs
    rw [losingCount] at h
    have : (ts.filter fun t => decide (t.pnl < 0)).map TradeOutcome.pnl = [] := habs
    rw [List.map_eq_nil_iff] at this
    rw [this] at h
    exact absurd h (by simp)
  · intro x hx
    simp only [sumLosses, List.mem_map, List.mem_filter, decide_eq_true_eq] at hx
    obtain ⟨t, ⟨_, hp⟩, rfl⟩ := hx
    exact hp

/-- avgWin is nonnegative. -/
lemma avgWin_nonneg (ts : List TradeOutcome) : 0 ≤ avgWin ts := by
  unfold avgWin
  split_ifs with h
  · exact div_nonneg (sumWins_nonneg ts) (by positivity)
  · exact sumWins_nonneg ts

/-- With at least one losing trade, avgLoss is negative. -/
lemma avgLoss_neg (ts : List TradeOutcome) (h : 0 < losingCount ts) :
    avgLoss ts < 0 := by
  unfold avgLoss
  rw [if_pos h]
  apply div_neg_of_neg_of_pos (sumLosses_neg ts h)
  exact_mod_cast h

/-- With no winning trade, avgWin is zero. -/
lemma avgWin_eq_zero (ts : List TradeOutcome) (h : winningCount ts = 0) :
    avgWin ts = 0 := by
  have hfil : (ts.filter fun t => decide (0 < t.pnl)) = [] :=
    List.length_eq_zero.mp h
  unfold avgWin sumWins
  rw [hfil]
  simp

/-- C4: the profit factor equals avgWin over the magnitude of avgLoss
capped at 100 whenever a losing trade exists, equals 100 with winners
and no losers, equals 0 with no winners, and always lies between 0 and
100. -/
theorem profit_factor_cases (ts : List TradeOutcome) :
    (0 < losingCount ts →
      profitFactor ts =
        if 100 < avgWin ts / -avgLoss ts then 100 else avgWin ts / -avgLoss ts) ∧
    (0 < winningCount ts → losingCount ts = 0 → profitFactor ts = 100) ∧
    (winningCount ts = 0 → profitFactor ts = 0) ∧
    0 ≤ profitFactor ts ∧ profitFactor ts ≤ 100 := by
  refine ⟨?_, ?_, ?_, ?_⟩
  · intro hl
    unfold profitFactor
    rw [if_pos ⟨ne_of_lt (avgLoss_neg ts hl), hl⟩]
  · intro hw hl
    unfold profitFactor
    rw [if_neg (by simp [hl]), if_pos ⟨hw, hl⟩]
  · intro hw
    have hW : avgWin ts = 0 := avgWin_eq_zero ts hw
    simp only [profitFactor, hW, zero_div]
    split_ifs with h1 h2 h3
    · exact absurd h2 (by norm_num)
    · rfl
    · exact absurd h3.1 (by simp [hw])
    · rfl
  · have hbody : 0 < losingCount ts → 0 ≤ avgWin ts / -avgLoss ts := by
      intro hl
      apply div_nonneg (avgWin_nonneg ts)
      have := avgLoss_neg ts hl
      linarith
    simp only [profitFactor]
    split_ifs with h1 h2 h3
    · norm_num
    · exact ⟨hbody h1.2, le_of_not_lt h2⟩
    · norm_num
    · norm_num

/-- Trades used by the witness for the profit factor claim: one winner
with PnL 10 and one loser with PnL -5. -/
def c4Win : TradeOutcome :=
  { symbol := "BTCUSDT", side := "long", quantity := 1, leverage := 5
    openPrice := 100, closePrice := 110, positionValue := 100, marginUsed := 20
    pnl := 10, pnlPct := 50, durationMs := 1000, openTimeMs := 0, closeTimeMs := 1000 }

/-- The losing witness trade. -/
def c4Loss : TradeOutcome :=
  { symbol := "ETHUSDT", side := "short", quantity := 1, leverage := 5
    openPrice := 50, closePrice := 55, positionValue := 50, marginUsed := 10
    pnl := -5, pnlPct := -50, durationMs := 2000, openTimeMs := 0, closeTimeMs := 2000 }

/-- Witness for C4 at one winning and one losing trade. -/
theorem profit_factor_cases_witness :
    0 < losingCount [c4Win, c4Loss] ∧
    profitFactor [c4Win, c4Loss] =
      (if 100 < avgWin [c4Win, c4Loss] / -avgLoss [c4Win, c4Loss] then 100
       else avgWin [c4Win, c4Loss] / -avgLoss [c4Win, c4Loss]) :=
  ⟨by norm_num [losingCount, c4Win, c4Loss],
    (profit_factor_cases [c4Win, c4Loss]).1
      (by norm_num [losingCount, c4Win, c4Loss])⟩

/-- The win rate of any outcome list lies between 0 and 100. -/
lemma winRate_bounds (ts : List TradeOutcome) :
    0 ≤ winRate ts ∧ winRate ts ≤ 100 := by
  unfold winRate
  split_ifs with h
  · have hle : winningCount ts ≤ ts.length := List.length_filter_le _ ts
    have hn : (0 : ℚ) < (ts.length : ℚ) := by exact_mod_cast h
    constructor
    · positivity
    · have hdiv : (winningCount ts : ℚ) / (ts.length : ℚ) ≤ 1 := by
        rw [div_le_one hn]
        exact_mod_cast hle
      nlinarith
  · norm_num

/-- C5: the aggregate win rate is winning count over total count times
100 with a zero guard and lies between 0 and 100, and the per-symbol
statistics are the same aggregation restricted to that symbol's
outcomes: the symbol win rate equals the win rate of the filtered list
and the symbol average PnL is the filtered total PnL over the filtered
trade count, both guarded at zero trades. -/
theorem win_rate_aggregation (ts : List TradeOutcome) (sym : String) :
    (0 < ts.length →
      winRate ts = (winningCount ts : ℚ) / (ts.length : ℚ) * 100) ∧
    (ts.length = 0 → winRate ts = 0) ∧
    0 ≤ winRate ts ∧ winRate ts ≤ 100 ∧
    symbolWinRate ts sym = winRate (symbolTrades ts sym) ∧
    (0 < symbolTotalTrades ts sym →
      symbolWinRate ts sym = (symbolWinningCount ts sym : ℚ) /
          (symbolTotalTrades ts sym : ℚ) * 100 ∧
      symbolAvgPnL ts sym = symbolTotalPnL ts sym / (symbolTotalTrades ts sym : ℚ)) ∧
    (symbolTotalTrades ts sym = 0 →
      symbolWinRate ts sym = 0 ∧ symbolAvgPnL ts sym = 0) ∧
    0 ≤ symbolWinRate ts sym ∧ symbolWinRate ts sym ≤ 100 := by
  have hsym : symbolWinRate ts sym = winRate (symbolTrades ts sym) := by
    unfold symbolWinRate winRate symbolWinningCount symbolTotalTrades winningCount
    rfl
  refine ⟨?_, ?_, (winRate_bounds ts).1, (winRate_bounds ts).2, hsym, ?_, ?_, ?_, ?_⟩
  · intro h
    unfold winRate
    rw [if_pos h]
  · intro h
    unfold winRate
    rw [if_neg (by omega)]
  · intro h
    constructor
    · unfold symbolWinRate
      rw [if_pos h]
    · unfold symbolAvgPnL
      rw [if_pos h]
  · intro h
    constructor
    · unfold symbolWinRate
      rw [if_neg (by omega)]
    · unfold symbolAvgPnL
      rw [if_neg (by omega)]
  · rw [hsym]
    exact (winRate_bounds _).1
  · rw [hsym]
    exact (winRate_bounds _).2

/-- Witness for C5 at a two-trade list with one trade of the queried
symbol. -/
theorem win_rate_aggregation_witness :
    0 < ([c4Win, c4Loss] : List TradeOutcome).length ∧
    winRate [c4Win, c4Loss] =
      (winningCount [c4Win, c4Loss] : ℚ) /
        (([c4Win, c4Loss] : List TradeOutcome).length : ℚ) * 100 ∧
    0 < symbolTotalTrades [c4Win, c4Loss] "BTCUSDT" ∧
    symbolWinRate [c4Win, c4Loss] "BTCUSDT" =
      (symbolWinningCount [c4Win, c4Loss] "BTCUSDT" : ℚ) /
        (symbolTotalTrades [c4Win, c4Loss] "BTCUSDT" : ℚ) * 100 :=
  ⟨by norm_num,
    (win_rate_aggregation [c4Win, c4Loss] "BTCUSDT").1 (by norm_num),
    by decide,
    ((win_rate_aggregation [c4Win, c4Loss] "BTCUSDT").2.2.2.2.2.1
      (by decide)).1⟩

/-- The clip keeps every value between -3 and 3. -/
lemma clipSharpe_bounds (s : ℝ) : -3 ≤ clipSharpe s ∧ clipSharpe s ≤ 3 := by
  unfold clipSharpe
  split_ifs with h1 h2
  · norm_num
  · norm_num
  · constructor <;> linarith

/-- C2: the Sharpe ratio is 0 with fewer than two valid per-trade
returns, is 0 when the population standard deviation of the valid
returns is 0, equals the clipped mean over population standard
deviation otherwise, and always lies between -3 and 3; a trade
contributes a valid return exactly when its base (margin used, else
position value, else the leverage-scaled open value) is positive. -/
theorem sharpe_ratio_spec (ts : List TradeOutcome) :
    (-3 ≤ sharpeRatio ts ∧ sharpeRatio ts ≤ 3) ∧
    ((validReturns ts).length < 2 → sharpeRatio ts = 0) ∧
    (2 ≤ ts.length → 2 ≤ (validReturns ts).length →
      stdDev (validReturns ts) = 0 → sharpeRatio ts = 0) ∧
    (2 ≤ ts.length → 2 ≤ (validReturns ts).length →
      0 < stdDev (validReturns ts) →
      sharpeRatio ts =
        clipSharpe (((meanReturn (validReturns ts) : ℚ) : ℝ) /
          stdDev (validReturns ts))) := by
  refine ⟨?_, ?_, ?_, ?_⟩
  · simp only [sharpeRatio]
    split_ifs with h1 h2 h3
    · exact clipSharpe_bounds _
    · norm_num
    · norm_num
    · norm_num
  · intro h
    simp only [sharpeRatio]
    split_ifs with h1 h2 h3
    · omega
    · rfl
    · rfl
    · rfl
  · intro h1 h2 h0
    simp only [sharpeRatio]
    rw [if_pos h1, if_pos h2, if_neg (by rw [h0]; exact lt_irrefl 0)]
  · intro h1 h2 h0
    simp only [sharpeRatio]
    rw [if_pos h1, if_pos h2, if_pos h0]

/-- Sharpe witness trade with margin 10 and PnL 1 (return 0.10). -/
def c2TradeA : TradeOutcome :=
  { symbol := "BTCUSDT", side := "long", quantity := 1, leverage := 5
    openPrice := 50, closePrice := 51, positionValue := 50, marginUsed := 10
    pnl := 1, pnlPct := 10, durationMs := 1000, openTimeMs := 0, closeTimeMs := 1000 }

/-- Sharpe witness trade with margin 25 and PnL -1 (return -0.04). -/
def c2TradeB : TradeOutcome :=
  { symbol := "ETHUSDT", side := "long", quantity := 1, leverage := 5
    openPrice := 125, closePrice := 124, positionValue := 125, marginUsed := 25
    pnl := -1, pnlPct := -4, durationMs := 1000, openTimeMs := 0, closeTimeMs := 1000 }

/-- The valid returns of the Sharpe witness sample. -/
lemma c2_validReturns :
    validReturns [c2TradeA, c2TradeB] = [1/10, -(1/25)] := by
  norm_num [validReturns, tradeReturnBase, c2TradeA, c2TradeB,
    List.filterMap_cons]

/-- The population variance of the Sharpe witness sample is 49/10000. -/
lemma c2_popVariance :
    popVariance (validReturns [c2TradeA, c2TradeB]) = 49 / 10000 := by
  rw [c2_validReturns]
  norm_num [popVariance, meanReturn]

/-- The standard deviation of the Sharpe witness sample is positive. -/
lemma c2_stdDev_pos : 0 < stdDev (validReturns [c2TradeA, c2TradeB]) := by
  unfold stdDev
  rw [c2_popVariance]
  apply Real.sqrt_pos.mpr
  norm_num

/-- Witness for C2 at the two-trade sample with returns 0.10 and
-0.04. -/
theorem sharpe_ratio_spec_witness :
    2 ≤ ([c2TradeA, c2TradeB] : List TradeOutcome).length ∧
    2 ≤ (validReturns [c2TradeA, c2TradeB]).length ∧
    0 < stdDev (validReturns [c2TradeA, c2TradeB]) ∧
    sharpeRatio [c2TradeA, c2TradeB] =
      clipSharpe (((meanReturn (validReturns [c2TradeA, c2TradeB]) : ℚ) : ℝ) /
        stdDev (validReturns [c2TradeA, c2TradeB])) :=
  ⟨by norm_num, by rw [c2_validReturns]; norm_num, c2_stdDev_pos,
    (sharpe_ratio_spec [c2TradeA, c2TradeB]).2.2.2 (by norm_num)
      (by rw [c2_validReturns]; norm_num) c2_stdDev_pos⟩

/-- With a positive batch size and fuel above the remaining length, the
batching loop terminates and returns batches whose concatenation is the
remaining input, all non-empty of length at most the batch size, with
every batch before the last of length exactly the batch size. -/
lemma splitLoop_spec (symbols : List String) (bs : ℕ) (hbs : 1 ≤ bs) :
    ∀ (fuel i : ℕ), symbols.length - i < fuel →
      ∃ batches, splitLoop symbols bs fuel i = some batches ∧
        batches.flatten = symbols.drop i ∧
        (batches = [] ↔ symbols.length ≤ i) ∧
        (∀ b ∈ batches, b.length ≤ bs ∧ b ≠ []) ∧
        (∀ j, j + 1 < batches.length → (batches.getD j []).length = bs) := by
  intro fuel
  induction fuel with
  | zero => intro i h; omega
  | succ fuel ih =>
    intro i h
    by_cases hi : i < symbols.length
    · obtain ⟨rest, hr, hflat, hempty, hmem, hexact⟩ := ih (i + bs) (by omega)
      have hcurlen : ((symbols.drop i).take (min (i + bs) symbols.length - i)).length =
          min (i + bs) symbols.length - i := by
        rw [List.length_take, List.length_drop]
        omega
      refine ⟨(symbols.drop i).take (min (i + bs) symbols.length - i) :: rest,
        ?_, ?_, ?_, ?_, ?_⟩
      · simp only [splitLoop, if_pos hi, hr]
      · have hdd : (symbols.drop i).drop (min (i + bs) symbols.length - i) =
            symbols.drop (i + (min (i + bs) symbols.length - i)) :=
          List.drop_drop _ _ _
        have hdeq : symbols.drop (i + (min (i + bs) symbols.length - i)) =
            symbols.drop (i + bs) := by
          rcases le_or_lt (i + bs) symbols.length with hle | hlt
          · have heq : i + (min (i + bs) symbols.length - i) = i + bs := by omega
            rw [heq]
          · have h1 : i + (min (i + bs) symbols.length - i) = symbols.length := by
              omega
            rw [h1, List.drop_eq_nil_of_le (le_refl _),
              List.drop_eq_nil_of_le (by omega)]
        show _ ++ rest.flatten = _
        rw [hflat, ← hdeq, ← hdd, List.take_append_drop]
      · simp only [List.cons_ne_nil, false_iff]
        omega
      · intro b hb
        rcases List.mem_cons.mp hb with hb | hb
        · subst hb
          constructor
          · rw [hcurlen]; omega
          · rw [← List.length_pos_iff_ne_nil, hcurlen]
            omega
        · exact hmem b hb
      · intro j hj
        cases j with
        | zero =>
          have hrest : rest ≠ [] := by
            intro habs
            rw [habs] at hj
            simp at hj
          have hlt : i + bs < symbols.length := by
            rcases lt_or_le (i + bs) symbols.length with hlt | hle
            · exact hlt
            · exact absurd (hempty.mpr hle) hrest
          show ((symbols.drop i).take (min (i + bs) symbols.length - i)).length = bs
          rw [hcurlen]
          omega
        | succ j =>
          have hj2 : j + 1 < rest.length := by
            simp only [List.length_cons] at hj
            omega
          simpa only [List.getD_cons_succ] using hexact j hj2
    · refine ⟨[], ?_, ?_, ?_, ?_, ?_⟩
      · simp only [splitLoop, if_neg hi]
      · simp
        omega
      · simp
        omega
      · intro b hb
        exact absurd hb (List.not_mem_nil b)
      · intro j hj
        simp at hj

/-- With batch size 0 on a non-empty list, the batching loop runs out of
any amount of fuel: the Go loop never terminates. -/
lemma splitLoop_zero_fuel_none (symbols : List String) (hne : symbols ≠ []) :
    ∀ fuel, splitLoop symbols 0 fuel 0 = none := by
  intro fuel
  induction fuel with
  | zero => rfl
  | succ fuel ih =>
    have h0 : 0 < symbols.length := List.length_pos.mpr hne
    simp only [splitLoop, if_pos h0, Nat.add_zero, ih]

/-- C10: with batch size at least 1 the batching terminates, the
concatenation of the batches is the input list, every batch is non-empty
of length at most the batch size and every batch except possibly the
last has length exactly the batch size; with batch size 0 and a
non-empty input the loop exhausts every fuel bound (it never
terminates), and BatchSubscribeKlines inherits this. -/
theorem split_into_batches_spec (symbols : List String) (bs : ℕ) :
    (1 ≤ bs → ∃ batches, splitIntoBatches symbols bs = some batches ∧
      batches.flatten = symbols ∧
      (∀ b ∈ batches, b.length ≤ bs ∧ b ≠ []) ∧
      (∀ j, j + 1 < batches.length → (batches.getD j []).length = bs)) ∧
    (bs = 0 → symbols ≠ [] → ∀ fuel, splitLoop symbols 0 fuel 0 = none) ∧
    (bs = 0 → symbols ≠ [] → ∀ interval,
      batchSubscribeKlinesBatches symbols interval 0 = none) := by
  refine ⟨?_, ?_, ?_⟩
  · intro hbs
    obtain ⟨batches, hb, hflat, _, hmem, hexact⟩ :=
      splitLoop_spec symbols bs hbs (symbols.length + 1) 0 (by omega)
    exact ⟨batches, hb, by rw [hflat, List.drop_zero], hmem, hexact⟩
  · intro hbs hne
    subst hbs
    exact splitLoop_zero_fuel_none symbols hne
  · intro hbs hne interval
    subst hbs
    unfold batchSubscribeKlinesBatches splitIntoBatches
    rw [splitLoop_zero_fuel_none symbols hne]
    rfl

/-- Witness for C10: batching three symbols at batch size 2. -/
theorem split_into_batches_spec_witness :
    1 ≤ 2 ∧ ∃ batches,
      splitIntoBatches ["BTCUSDT", "ETHUSDT", "SOLUSDT"] 2 = some batches ∧
      batches.flatten = ["BTCUSDT", "ETHUSDT", "SOLUSDT"] ∧
      (∀ b ∈ batches, b.length ≤ 2 ∧ b ≠ []) ∧
      (∀ j, j + 1 < batches.length → (batches.getD j []).length = 2) :=
  ⟨by norm_num,
    (split_into_batches_spec ["BTCUSDT", "ETHUSDT", "SOLUSDT"] 2).1 (by norm_num)⟩

/-- Membership in a fold of stream-list appends. -/
lemma mem_foldl_recordSubscribed (x : String) :
    ∀ (reqs : List (List String)) (init : List String),
      (x ∈ reqs.foldl recordSubscribed init ↔ x ∈ init ∨ ∃ r ∈ reqs, x ∈ r) := by
  intro reqs
  induction reqs with
  | nil => intro init; simp
  | cons r rs ih =>
    intro init
    simp only [List.foldl_cons, recordSubscribed]
    rw [ih (init ++ r)]
    simp only [List.mem_append, List.mem_cons]
    constructor
    · rintro ((h | h) | ⟨r2, hr2, hx⟩)
      · exact Or.inl h
      · exact Or.inr ⟨r, Or.inl rfl, h⟩
      · exact Or.inr ⟨r2, Or.inr hr2, hx⟩
    · rintro (h | ⟨r2, (rfl | hr2), hx⟩)
      · exact Or.inl (Or.inl h)
      · exact Or.inl (Or.inr hx)
      · exact Or.inr ⟨r2, hr2, hx⟩

/-- A stream is recorded exactly when some past request contained it. -/
lemma mem_accumulatedStreams (x : String) (reqs : List (List String)) :
    x ∈ accumulatedStreams reqs ↔ ∃ r ∈ reqs, x ∈ r := by
  unfold accumulatedStreams
  rw [mem_foldl_recordSubscribed]
  simp

/-- C6: after any sequence of subscription requests, the streams
replayed on reconnection are exactly the deduplicated union of all
previously requested stream keys: no key appears twice, a key appears
exactly when some request contained it, and the keys are re-batched at
the configured batch size. -/
theorem reconnect_resubscription (requests : List (List String)) (bs : ℕ)
    (hbs : 1 ≤ bs) :
    ∃ batches,
      handleReconnectBatches (accumulatedStreams requests) bs = some batches ∧
      batches.flatten.Nodup ∧
      (∀ s, s ∈ batches.flatten ↔ ∃ r ∈ requests, s ∈ r) ∧
      (∀ b ∈ batches, b.length ≤ bs ∧ b ≠ []) ∧
      (∀ j, j + 1 < batches.length → (batches.getD j []).length = bs) := by
  obtain ⟨batches, hb, hflat, _, hmem, hexact⟩ :=
    splitLoop_spec (resubscribeList (accumulatedStreams requests)) bs hbs
      ((resubscribeList (accumulatedStreams requests)).length + 1) 0 (by omega)
  have hflat2 : batches.flatten = resubscribeList (accumulatedStreams requests) := by
    rw [hflat, List.drop_zero]
  refine ⟨batches, hb, ?_, ?_, hmem, hexact⟩
  · rw [hflat2]
    exact List.nodup_dedup _
  · intro s
    rw [hflat2]
    unfold resubscribeList
    rw [List.mem_dedup, mem_accumulatedStreams]

/-- Witness for C6: the spec scenario, subscribing to streams A and B,
then after a reconnect subscribing to B and C. -/
theorem reconnect_resubscription_witness :
    1 ≤ 10 ∧ ∃ batches,
      handleReconnectBatches
        (accumulatedStreams [["A", "B"], ["B", "C"]]) 10 = some batches ∧
      batches.flatten.Nodup ∧
      (∀ s, s ∈ batches.flatten ↔ ∃ r ∈ ([["A", "B"], ["B", "C"]] : List (List String)), s ∈ r) ∧
      (∀ b ∈ batches, b.length ≤ 10 ∧ b ≠ []) ∧
      (∀ j, j + 1 < batches.length → (batches.getD j []).length = 10) :=
  ⟨by norm_num, reconnect_resubscription [["A", "B"], ["B", "C"]] 10 (by norm_num)⟩

/-- A freshly connected client with one registered subscriber. -/
def c7Fresh : ClientState :=
  { reconnect := true, doneClosed := false, connOpen := true
    sockCloseCount := 0, subscribers := ["btcusdt@kline_1m"], closedChans := [] }

/-- The state c7Fresh reaches after one Close call. -/
def c7Closed : ClientState :=
  { reconnect := false, doneClosed := true, connOpen := false
    sockCloseCount := 1, subscribers := [], closedChans := ["btcusdt@kline_1m"] }

/-- Counterexample to C7: Close is not idempotent.  The first call
succeeds, but a second call panics (close of the already-closed done
channel at line 255) instead of being a no-op. -/
theorem close_second_call_panics :
    closeClient c7Fresh = Except.ok c7Closed ∧
    closeClient c7Closed = Except.error "close of closed channel" :=
  ⟨rfl, rfl⟩

/-- C7 as amended: Close is not idempotent.  From a state whose done
channel is not yet closed, Close succeeds, clears the reconnect flag,
closes the socket at most once (exactly once when it was open), and
closes and removes every registered subscriber channel exactly once;
from a state whose done channel is already closed, Close panics before
touching the socket or any channel, so across repeated calls no channel
and no socket is ever closed twice. -/
theorem close_behavior (c : ClientState) :
    (c.doneClosed = false →
      closeClient c = Except.ok
        { reconnect := false, doneClosed := true, connOpen := false
          sockCloseCount := c.sockCloseCount + (if c.connOpen then 1 else 0)
          subscribers := [], closedChans := c.closedChans ++ c.subscribers }) ∧
    (c.doneClosed = true →
      closeClient c = Except.error "close of closed channel") := by
  constructor
  · intro h
    by_cases hc : c.connOpen
    · simp [closeClient, h, hc]
    · simp [closeClient, h, hc]
  · intro h
    simp [closeClient, h]

/-- Witness for the amended C7 at the fresh client state. -/
theorem close_behavior_witness :
    c7Fresh.doneClosed = false ∧
    closeClient c7Fresh = Except.ok
      { reconnect := false, doneClosed := true, connOpen := false
        sockCloseCount := c7Fresh.sockCloseCount + (if c7Fresh.connOpen then 1 else 0)
        subscribers := [], closedChans := c7Fresh.closedChans ++ c7Fresh.subscribers } :=
  ⟨rfl, (close_behavior c7Fresh).1 rfl⟩

/-- Replacing the channel of a registered key makes lookups of that key
return the new channel. -/
lemma lookupChan_setChan_self :
    ∀ (subs : List (String × SubChan)) (key : String) (ch0 ch : SubChan),
      lookupChan subs key = some ch0 →
      lookupChan (setChan subs key ch) key = some ch := by
  intro subs
  induction subs with
  | nil => intro key ch0 ch h; simp [lookupChan] at h
  | cons p rest ih =>
    intro key ch0 ch h
    obtain ⟨k, c⟩ := p
    by_cases hk : k == key
    · simp only [setChan, hk, if_true, lookupChan]
    · simp only [setChan, hk, Bool.false_eq_true, if_false, lookupChan]
      simp only [lookupChan, hk, Bool.false_eq_true, if_false] at h
      exact ih key ch0 ch h

/-- Replacing the channel of one key leaves lookups of every other key
unchanged. -/
lemma lookupChan_setChan_other :
    ∀ (subs : List (String × SubChan)) (key : String) (ch : SubChan)
      (k2 : String), k2 ≠ key →
      lookupChan (setChan subs key ch) k2 = lookupChan subs k2 := by
  intro subs
  induction subs with
  | nil => intro key ch k2 _; rfl
  | cons p rest ih =>
    intro key ch k2 hne
    obtain ⟨k, c⟩ := p
    by_cases hk : k == key
    · have hkey : k = key := by simpa using hk
      have hk2 : (k == k2) = false := by
        simp only [beq_eq_false_iff_ne, ne_eq, hkey]
        exact fun habs => hne habs.symm
      simp only [setChan, hk, if_true, lookupChan, hk2, Bool.false_eq_true, if_false]
    · simp only [setChan, hk, Bool.false_eq_true, if_false, lookupChan]
      by_cases hk2 : k == k2
      · simp only [hk2, if_true]
      · simp only [hk2, Bool.false_eq_true, if_false]
        exact ih key ch k2 hne

/-- C8: dispatch of a combined-stream frame delivers the payload to the
channel registered under the frame's stream key when it has free
capacity (appending it to that buffer and warning nothing), drops the
payload with a warning when the buffer is full, discards the frame when
no subscriber is registered, and never alters a channel registered
under a different key. -/
theorem dispatch_spec (subs : List (String × SubChan)) (stream payload : String) :
    (lookupChan subs stream = none →
      handleCombinedMessage subs stream payload = (subs, false)) ∧
    (∀ ch, lookupChan subs stream = some ch → ch.buffer.length < ch.capacity →
      (handleCombinedMessage subs stream payload).2 = false ∧
      lookupChan (handleCombinedMessage subs stream payload).1 stream =
        some { capacity := ch.capacity, buffer := ch.buffer ++ [payload] } ∧
      (∀ k, k ≠ stream →
        lookupChan (handleCombinedMessage subs stream payload).1 k =
          lookupChan subs k)) ∧
    (∀ ch, lookupChan subs stream = some ch → ¬ ch.buffer.length < ch.capacity →
      handleCombinedMessage subs stream payload = (subs, true)) := by
  refine ⟨?_, ?_, ?_⟩
  · intro h
    unfold handleCombinedMessage
    rw [h]
  · intro ch hch hcap
    have hmsg : handleCombinedMessage subs stream payload =
        (setChan subs stream { capacity := ch.capacity, buffer := ch.buffer ++ [payload] },
          false) := by
      unfold handleCombinedMessage
      rw [hch]
      simp only [hcap, if_true]
    refine ⟨by rw [hmsg], ?_, ?_⟩
    · rw [hmsg]
      exact lookupChan_setChan_self subs stream ch _ hch
    · intro k hk
      rw [hmsg]
      exact lookupChan_setChan_other subs stream _ k hk
  · intro ch hch hcap
    unfold handleCombinedMessage
    rw [hch]
    simp only [hcap, if_false]

/-- The registry used by the dispatch witness: one subscriber with
capacity 2 holding one buffered payload. -/
def c8Subs : List (String × SubChan) :=
  [("btcusdt@kline_1m", { capacity := 2, buffer := ["t0"] })]

/-- Witness for C8: delivering a payload to a channel with free
capacity. -/
theorem dispatch_spec_witness :
    lookupChan c8Subs "btcusdt@kline_1m" =
      some { capacity := 2, buffer := ["t0"] } ∧
    (["t0"] : List String).length < 2 ∧
    ((handleCombinedMessage c8Subs "btcusdt@kline_1m" "t1").2 = false ∧
      lookupChan (handleCombinedMessage c8Subs "btcusdt@kline_1m" "t1").1
          "btcusdt@kline_1m" =
        some { capacity := 2, buffer := ["t0"] ++ ["t1"] } ∧
      (∀ k, k ≠ "btcusdt@kline_1m" →
        lookupChan (handleCombinedMessage c8Subs "btcusdt@kline_1m" "t1").1 k =
          lookupChan c8Subs k)) :=
  ⟨rfl, by norm_num,
    (dispatch_spec c8Subs "btcusdt@kline_1m" "t1").2.1
      { capacity := 2, buffer := ["t0"] } rfl (by norm_num)⟩

end Nofx
